import Mathlib

/-!
# Verification of the sheet-to-confluence sync tool

Shallow embedding of the core logic of the repository:
* `src/api_server.py` — grid normalization, record construction, `/lessons` query;
* `src/sheet_to_confluence.py` — CSV encoding, attachment upsert, retry policy,
  write-back, configuration validation;
* `src/generate_lessons_from_sheet.py` — page lookup by title + ancestor chain;
* `src/llm_client.py` — single-shot generation-backend call.

Remote HTTP backends are modelled as explicit state (for the wiki attachment
store) or as response oracles (functions from attempt index to HTTP status).
Python strings are modelled as `String` where only equality/trim matter, and as
`List Char` for the CSV byte-level claims, where the proofs need to traverse
the text character by character.  UTF-8 encoding is treated abstractly: the
byte-order mark is the single character U+FEFF prepended by the encoder.
-/

/-! ## Grid normalization (`_normalize_table`, src/api_server.py lines 42-46) -/

/-- `_normalize_table` from `src/api_server.py`: returns the input unchanged if
empty, otherwise right-pads every row with `""` up to the maximum row length. -/
def _normalize_table (values : List (List String)) : List (List String) :=
  if values = [] then values
  else
    let max_cols := (values.map List.length).foldl max 0
    values.map (fun r => r ++ List.replicate (max_cols - r.length) "")

/-- The maximum row length used by `_normalize_table`. -/
def maxCols (values : List (List String)) : Nat :=
  (values.map List.length).foldl max 0

lemma foldl_max_init_le (l : List Nat) (a : Nat) : a ≤ l.foldl max a := by
  induction l generalizing a with
  | nil => simp
  | cons b t ih => exact le_trans (le_max_left a b) (ih (max a b))

lemma le_foldl_max_of_mem {l : List Nat} {x : Nat} (hx : x ∈ l) (a : Nat) :
    x ≤ l.foldl max a := by
  induction l generalizing a with
  | nil => cases hx
  | cons b t ih =>
    rcases List.mem_cons.mp hx with h | h
    · subst h
      exact le_trans (le_max_right a x) (foldl_max_init_le t (max a x))
    · exact ih h (max a b)

lemma row_length_le_maxCols {values : List (List String)} {r : List String}
    (hr : r ∈ values) : r.length ≤ maxCols values :=
  le_foldl_max_of_mem (List.mem_map_of_mem List.length hr) 0

lemma _normalize_table_eq (values : List (List String)) (h : values ≠ []) :
    _normalize_table values =
      values.map (fun r => r ++ List.replicate (maxCols values - r.length) "") := by
  simp only [_normalize_table, if_neg h]
  rfl

/-- **C2.** For every grid, `_normalize_table` returns a grid with the same
number of rows in which every row has length `maxCols` (the maximum input row
length), each original cell is unchanged at its original `(row, column)`
position, every added cell is the empty string, and the empty grid is returned
unchanged. -/
theorem normalize_table_spec (values : List (List String)) :
    (values = [] → _normalize_table values = values) ∧
    (_normalize_table values).length = values.length ∧
    (∀ row ∈ _normalize_table values, row.length = maxCols values) ∧
    (∀ (i j : Nat) (d : String), i < values.length → j < (values.getD i []).length →
      ((_normalize_table values).getD i []).getD j d = (values.getD i []).getD j d) ∧
    (∀ (i j : Nat) (d : String), i < values.length →
      (values.getD i []).length ≤ j → j < maxCols values →
      ((_normalize_table values).getD i []).getD j d = "") := by
  by_cases hv : values = []
  · subst hv
    refine ⟨fun _ => rfl, rfl, ?_, ?_, ?_⟩
    · intro row hrow
      simp [_normalize_table] at hrow
    · intro i j d hi _
      simp at hi
    · intro i j d hi _ _
      simp at hi
  · rw [_normalize_table_eq values hv]
    refine ⟨fun h => absurd h hv, by simp, ?_, ?_, ?_⟩
    · intro row hrow
      rcases List.mem_map.mp hrow with ⟨r, hr, rfl⟩
      have := row_length_le_maxCols hr
      simp [List.length_append, List.length_replicate]
      omega
    · intro i j d hi hj
      have hi' : i < (values.map
          (fun r => r ++ List.replicate (maxCols values - r.length) "")).length := by
        simpa using hi
      rw [List.getD_eq_getElem _ _ hi', List.getD_eq_getElem _ _ hi,
        List.getElem_map]
      have hrow : values[i] = values.getD i [] := (List.getD_eq_getElem _ _ hi).symm
      have hj' : j < values[i].length := by rw [hrow]; exact hj
      have hj'' : j < (values[i] ++
          List.replicate (maxCols values - values[i].length) "").length := by
        simp [List.length_append]; omega
      rw [List.getD_eq_getElem _ _ hj'', List.getElem_append_left hj',
        List.getD_eq_getElem _ _ hj']
    · intro i j d hi hjlo hjhi
      have hi' : i < (values.map
          (fun r => r ++ List.replicate (maxCols values - r.length) "")).length := by
        simpa using hi
      rw [List.getD_eq_getElem _ _ hi', List.getElem_map]
      have hrow : values[i] = values.getD i [] := (List.getD_eq_getElem _ _ hi).symm
      have hjlo' : values[i].length ≤ j := by rw [hrow]; exact hjlo
      have hmax : values[i].length ≤ maxCols values :=
        row_length_le_maxCols (List.getElem_mem hi)
      have hj'' : j < (values[i] ++
          List.replicate (maxCols values - values[i].length) "").length := by
        simp [List.length_append]; omega
      rw [List.getD_eq_getElem _ _ hj'',
        List.getElem_append_right hjlo']
      simp

/-- Witness for `normalize_table_spec` at a concrete ragged grid. -/
theorem normalize_table_spec_witness :
    (_normalize_table [["a"], ["b", "c"]]).length = 2 ∧
    ((_normalize_table [["a"], ["b", "c"]]).getD 0 []).getD 1 "d" = "" := by
  have h := normalize_table_spec [["a"], ["b", "c"]]
  exact ⟨h.2.1, h.2.2.2.2 0 1 "d" (by decide) (by decide) (by decide)⟩

/-! ## Record construction (`_rows_to_dicts`, src/api_server.py lines 48-58)

A Python `dict` built by a comprehension is modelled as an association list in
insertion order: inserting an existing key overwrites its value in place,
inserting a fresh key appends it at the end. -/

/-- Python `str.strip()`: drop leading and trailing whitespace.  Written over
the character list so that it evaluates by kernel reduction. -/
def pyStrip (s : String) : String :=
  String.mk (((s.data.dropWhile Char.isWhitespace).reverse.dropWhile
    Char.isWhitespace).reverse)

/-- One insertion into a Python-dict model: overwrite in place if the key is
present, else append at the end. -/
def dictInsert : List (String × String) → String → String → List (String × String)
  | [], k, v => [(k, v)]
  | (k0, v0) :: rest, k, v =>
    if k0 = k then (k0, v) :: rest else (k0, v0) :: dictInsert rest k v

/-- The `(headers[i], row[i])` pairs enumerated by the dict comprehension
`{headers[i]: row[i] for i in range(len(headers))}`. -/
def recordPairs (headers row : List String) : List (String × String) :=
  (List.range headers.length).map (fun i => (headers.getD i "", row.getD i ""))

/-- The dict built by the comprehension in `_rows_to_dicts`. -/
def buildRecord (headers row : List String) : List (String × String) :=
  (recordPairs headers row).foldl (fun d kv => dictInsert d kv.1 kv.2) []

/-- `_rows_to_dicts` from `src/api_server.py`: normalizes, trims the header
row, and builds one dict per non-header row. -/
def _rows_to_dicts (values : List (List String)) : List (List (String × String)) :=
  match _normalize_table values with
  | [] => []
  | h :: rest =>
    let headers := h.map (fun s => pyStrip s)
    rest.map (fun row => buildRecord headers row)

lemma dictInsert_keys (d : List (String × String)) (k v : String) :
    (dictInsert d k v).map Prod.fst =
      if k ∈ d.map Prod.fst then d.map Prod.fst else d.map Prod.fst ++ [k] := by
  induction d with
  | nil => simp [dictInsert]
  | cons kv0 t ih =>
    obtain ⟨k0, v0⟩ := kv0
    by_cases hk : k0 = k
    · subst hk
      simp [dictInsert]
    · have hne : ¬ (k = k0) := fun h => hk h.symm
      simp only [dictInsert, if_neg hk, List.map_cons, List.mem_cons, ih]
      by_cases hmem : k ∈ t.map Prod.fst
      · simp [hmem, hne]
      · simp [hmem, hne]

lemma dictInsert_keys_nodup {d : List (String × String)} (k v : String)
    (h : (d.map Prod.fst).Nodup) : ((dictInsert d k v).map Prod.fst).Nodup := by
  rw [dictInsert_keys]
  by_cases hmem : k ∈ d.map Prod.fst
  · simpa [hmem] using h
  · simp only [if_neg hmem]
    exact List.Nodup.append h (List.nodup_singleton k)
      (by simpa [List.disjoint_singleton] using hmem)

lemma dictInsert_keys_toFinset (d : List (String × String)) (k v : String) :
    ((dictInsert d k v).map Prod.fst).toFinset = insert k (d.map Prod.fst).toFinset := by
  rw [dictInsert_keys]
  by_cases hmem : k ∈ d.map Prod.fst
  · rw [if_pos hmem, eq_comm, Finset.insert_eq_self]
    exact List.mem_toFinset.mpr hmem
  · rw [if_neg hmem, List.toFinset_append, Finset.union_comm]
    simp [Finset.insert_eq]

lemma foldl_dictInsert_keys_nodup (ps : List (String × String))
    (d : List (String × String)) (h : (d.map Prod.fst).Nodup) :
    ((ps.foldl (fun d kv => dictInsert d kv.1 kv.2) d).map Prod.fst).Nodup := by
  induction ps generalizing d with
  | nil => exact h
  | cons kv t ih => exact ih _ (dictInsert_keys_nodup kv.1 kv.2 h)

lemma foldl_dictInsert_keys_toFinset (ps : List (String × String))
    (d : List (String × String)) :
    ((ps.foldl (fun d kv => dictInsert d kv.1 kv.2) d).map Prod.fst).toFinset =
      (d.map Prod.fst).toFinset ∪ (ps.map Prod.fst).toFinset := by
  induction ps generalizing d with
  | nil => simp
  | cons kv t ih =>
    rw [List.foldl_cons, ih, dictInsert_keys_toFinset]
    simp only [List.map_cons, List.toFinset_cons]
    rw [Finset.insert_union, Finset.union_insert]

lemma range_map_getD {α : Type} (l : List α) (d : α) :
    (List.range l.length).map (fun i => l.getD i d) = l := by
  induction l with
  | nil => simp
  | cons a t ih =>
    rw [List.length_cons, List.range_succ_eq_map, List.map_cons, List.map_map]
    simp only [List.getD_cons_zero, List.getD_cons_succ, Function.comp_def]
    rw [ih]

lemma recordPairs_keys (headers row : List String) :
    (recordPairs headers row).map Prod.fst = headers := by
  unfold recordPairs
  rw [List.map_map]
  exact range_map_getD headers ""

lemma buildRecord_keys_nodup (headers row : List String) :
    ((buildRecord headers row).map Prod.fst).Nodup :=
  foldl_dictInsert_keys_nodup _ [] (by simp)

lemma buildRecord_keys_toFinset (headers row : List String) :
    ((buildRecord headers row).map Prod.fst).toFinset = headers.toFinset := by
  unfold buildRecord
  rw [foldl_dictInsert_keys_toFinset, recordPairs_keys]
  simp

lemma buildRecord_length (headers row : List String) :
    (buildRecord headers row).length = headers.toFinset.card := by
  have h1 : (buildRecord headers row).length =
      ((buildRecord headers row).map Prod.fst).length := by simp
  rw [h1, ← List.toFinset_card_of_nodup (buildRecord_keys_nodup headers row),
    buildRecord_keys_toFinset]

/-- The trimmed header row that `_rows_to_dicts` uses as dict keys. -/
def trimmedHeaders (values : List (List String)) : List String :=
  ((_normalize_table values).headD []).map (fun s => pyStrip s)

/-- **C3 (amended).** For every non-empty grid, `_rows_to_dicts` returns
exactly `rows - 1` records; each record's keys are duplicate-free and are
exactly the distinct trimmed headers, so each record has exactly as many keys
as there are *distinct* trimmed header names — which equals the header count
whenever the trimmed headers are pairwise distinct. -/
theorem rows_to_dicts_spec (values : List (List String)) (h : values ≠ []) :
    (_rows_to_dicts values).length = values.length - 1 ∧
    (∀ rec ∈ _rows_to_dicts values,
      (rec.map Prod.fst).Nodup ∧
      (rec.map Prod.fst).toFinset = (trimmedHeaders values).toFinset ∧
      rec.length = (trimmedHeaders values).toFinset.card) ∧
    ((trimmedHeaders values).Nodup →
      ∀ rec ∈ _rows_to_dicts values, rec.length = (trimmedHeaders values).length) := by
  have hnorm : _normalize_table values ≠ [] := by
    rw [_normalize_table_eq values h]
    simpa using h
  obtain ⟨h0, rest, heq⟩ : ∃ h0 rest, _normalize_table values = h0 :: rest := by
    cases hn : _normalize_table values with
    | nil => exact absurd hn hnorm
    | cons a t => exact ⟨a, t, rfl⟩
  have hlen : values.length = rest.length + 1 := by
    have := (normalize_table_spec values).2.1
    rw [heq] at this
    simpa using this.symm
  have hdicts : _rows_to_dicts values =
      rest.map (fun row => buildRecord (h0.map (fun s => pyStrip s)) row) := by
    simp only [_rows_to_dicts, heq]
  have hheads : trimmedHeaders values = h0.map (fun s => pyStrip s) := by
    simp only [trimmedHeaders, heq, List.headD_cons]
  refine ⟨?_, ?_, ?_⟩
  · rw [hdicts, List.length_map, hlen]
    omega
  · intro rec hrec
    rw [hdicts] at hrec
    rcases List.mem_map.mp hrec with ⟨row, _, rfl⟩
    rw [hheads]
    exact ⟨buildRecord_keys_nodup _ _, buildRecord_keys_toFinset _ _,
      buildRecord_length _ _⟩
  · intro hnodup rec hrec
    rw [hdicts] at hrec
    rcases List.mem_map.mp hrec with ⟨row, _, rfl⟩
    rw [hheads] at hnodup ⊢
    rw [buildRecord_length, List.toFinset_card_of_nodup hnodup]

/-- Witness for `rows_to_dicts_spec` at a grid with distinct headers. -/
theorem rows_to_dicts_spec_witness :
    (_rows_to_dicts [["a", "b"], ["x", "y"]]).length = 1 ∧
    (∀ rec ∈ _rows_to_dicts [["a", "b"], ["x", "y"]],
      rec.length = (trimmedHeaders [["a", "b"], ["x", "y"]]).length) := by
  have h := rows_to_dicts_spec [["a", "b"], ["x", "y"]] (by decide)
  exact ⟨h.1, h.2.2 (by decide)⟩

/-- **C3 counterexample.** On the normalized grid `[["a", "a"], ["x", "y"]]`
the header row has 2 entries, but the single record produced by
`_rows_to_dicts` has only 1 key (the duplicate trimmed header collapses), so
the claim "each record has exactly as many keys as the header row has entries"
fails. -/
theorem rows_to_dicts_counterexample :
    (["a", "a"] : List String).length = 2 ∧
    _rows_to_dicts [["a", "a"], ["x", "y"]] = [[("a", "y")]] ∧
    ¬ (∀ rec ∈ _rows_to_dicts [["a", "a"], ["x", "y"]], rec.length = 2) := by
  refine ⟨by decide, by decide, fun hall => ?_⟩
  have h1 := hall [("a", "y")] (by decide)
  simp at h1

/-! ## CSV encoding (`to_csv_utf8_bom`, src/sheet_to_confluence.py lines 167-178)

Cells are `Option (List Char)` (Python `None` or a string as a character
list); the encoder follows Python's `csv.writer` default dialect
(`QUOTE_MINIMAL`, delimiter `,`, quote `"`) with `lineterminator="\r\n"`, and
prepends the byte-order mark U+FEFF.  The decoder below implements the
round-trip procedure described by the specification: strip the byte-order
mark, split the text on CRLF line terminators, split each line on the
separator. -/

/-- Characters that force quoting under `QUOTE_MINIMAL`: the delimiter, the
quote character, and the line-terminator characters. -/
def isCsvSpecial (c : Char) : Bool :=
  c = ',' || c = '"' || c = '\r' || c = '\n'

/-- Double every quote character (Python `csv` escaping inside a quoted
field). -/
def escapeQuotes : List Char → List Char
  | [] => []
  | c :: cs => if c = '"' then '"' :: '"' :: escapeQuotes cs else c :: escapeQuotes cs

/-- Encode one field: quote (and escape) only when a special character is
present. -/
def encodeField (s : List Char) : List Char :=
  if s.any isCsvSpecial then '"' :: (escapeQuotes s ++ ['"']) else s

/-- `("" if v is None else str(v))` applied to a cell. -/
def pyStrCell (v : Option (List Char)) : List Char := v.getD []

/-- One CSV record: fields joined by the delimiter. -/
def encodeRow (row : List (Option (List Char))) : List Char :=
  List.intercalate [','] (row.map (fun v => encodeField (pyStrCell v)))

/-- The byte-order mark character U+FEFF. -/
def bomChar : Char := Char.ofNat 0xFEFF

/-- `to_csv_utf8_bom` from `src/sheet_to_confluence.py`: write one CSV record
per row into the output buffer (the fold mirrors the `for row in values`
loop), terminate each with CRLF, and prepend the byte-order mark. -/
def to_csv_utf8_bom (values : List (List (Option (List Char)))) : List Char :=
  bomChar :: values.foldl (fun acc row => acc ++ (encodeRow row ++ ['\r', '\n'])) []

/-- `rows_to_csv_utf8_bom` from `src/sheet_to_confluence.py` (the
folder-listing payload path): delegates to `to_csv_utf8_bom`. -/
def rows_to_csv_utf8_bom (rows : List (List (Option (List Char)))) : List Char :=
  to_csv_utf8_bom rows

/-- Prepend a character to the first piece of a split result. -/
def consHead (c : Char) : List (List Char) → List (List Char)
  | [] => [[c]]
  | p :: ps => (c :: p) :: ps

/-- Split on the two-character sequence CRLF (as Python `str.split("\r\n")`). -/
def splitCRLF : List Char → List (List Char)
  | [] => [[]]
  | [c] => [[c]]
  | c :: c2 :: cs =>
    if c = '\r' ∧ c2 = '\n' then [] :: splitCRLF cs
    else consHead c (splitCRLF (c2 :: cs))

/-- Strip a leading byte-order mark, if present. -/
def stripBOM (s : List Char) : List Char :=
  match s with
  | [] => []
  | c :: cs => if c = bomChar then cs else c :: cs

/-- The decoding procedure of the round-trip claim: strip the byte-order
mark, split on CRLF (dropping the empty piece after the final terminator),
and split each line on the separator. -/
def decodeCsv (s : List Char) : List (List (List Char)) :=
  ((splitCRLF (stripBOM s)).dropLast).map (fun l => l.splitOn ',')

lemma csv_foldl_join (g : List (List (Option (List Char)))) (acc : List Char) :
    g.foldl (fun acc row => acc ++ (encodeRow row ++ ['\r', '\n'])) acc
      = acc ++ (g.map (fun row => encodeRow row ++ ['\r', '\n'])).join := by
  induction g generalizing acc with
  | nil => simp
  | cons row rest ih => simp [ih, List.append_assoc]

lemma to_csv_utf8_bom_eq (g : List (List (Option (List Char)))) :
    to_csv_utf8_bom g =
      bomChar :: (g.map (fun row => encodeRow row ++ ['\r', '\n'])).join := by
  rw [to_csv_utf8_bom, csv_foldl_join]
  rfl

lemma splitCRLF_append (l rest : List Char) (h : '\r' ∉ l) :
    splitCRLF (l ++ '\r' :: '\n' :: rest) = l :: splitCRLF rest := by
  induction l with
  | nil => simp [splitCRLF]
  | cons c l' ih =>
    have hc : ¬ c = '\r' := fun hc => h (hc ▸ List.mem_cons_self c l')
    have hl' : '\r' ∉ l' := fun hm => h (List.mem_cons_of_mem c hm)
    cases l' with
    | nil => simp [splitCRLF, hc, consHead]
    | cons b l'' =>
      have hrec := ih hl'
      simp only [List.cons_append] at hrec ⊢
      simp [splitCRLF, hc, hrec, consHead]

lemma splitCRLF_lines (lines : List (List Char)) (h : ∀ l ∈ lines, '\r' ∉ l) :
    splitCRLF ((lines.map (fun l => l ++ ['\r', '\n'])).join) = lines ++ [[]] := by
  induction lines with
  | nil => simp [splitCRLF]
  | cons a t ih =>
    have ha : '\r' ∉ a := h a (List.mem_cons_self a t)
    have ht : ∀ l ∈ t, '\r' ∉ l := fun l hl => h l (List.mem_cons_of_mem a hl)
    simp only [List.map_cons, List.join_cons, List.append_assoc, List.cons_append,
      List.nil_append]
    rw [splitCRLF_append _ _ ha, ih ht]

lemma encodeField_of_safe {s : List Char} (h : ∀ c ∈ s, isCsvSpecial c = false) :
    encodeField s = s := by
  have hany : s.any isCsvSpecial = false := by
    rw [List.any_eq_false]
    intro c hc
    simp [h c hc]
  simp [encodeField, hany]

lemma safe_not_special {ch : Char} (h1 : 32 ≤ ch.toNat) (h2 : ch ≠ ',')
    (h3 : ch ≠ '"') : isCsvSpecial ch = false := by
  have hr : ch ≠ '\r' := by
    intro hh
    rw [hh] at h1
    exact absurd h1 (by decide)
  have hn : ch ≠ '\n' := by
    intro hh
    rw [hh] at h1
    exact absurd h1 (by decide)
  simp [isCsvSpecial, h2, h3, hr, hn]

lemma mem_intersperse {α : Type} {sep x : α} {l : List α}
    (h : x ∈ l.intersperse sep) : x = sep ∨ x ∈ l := by
  induction l with
  | nil => simp [List.intersperse] at h
  | cons a t ih =>
    cases t with
    | nil =>
      simp at h
      simp [h]
    | cons b t' =>
      rw [List.intersperse_cons_cons] at h
      rcases List.mem_cons.mp h with h1 | h1
      · simp [h1]
      · rcases List.mem_cons.mp h1 with h2 | h2
        · exact Or.inl h2
        · rcases ih h2 with h3 | h3
          · exact Or.inl h3
          · exact Or.inr (List.mem_cons_of_mem a h3)

lemma mem_of_mem_intercalate {sep : List Char} {rows : List (List Char)}
    {c : Char} (hc : c ∈ List.intercalate sep rows) :
    c ∈ sep ∨ ∃ r ∈ rows, c ∈ r := by
  rw [List.intercalate] at hc
  rcases List.mem_join.mp hc with ⟨p, hp, hcp⟩
  rcases mem_intersperse hp with h | h
  · exact Or.inl (h ▸ hcp)
  · exact Or.inr ⟨p, h, hcp⟩

/-- **C4 (amended).** For every grid whose cells contain only printable ASCII
characters other than the separator `,` and the quote `"`, and whose rows are
all non-empty, the CSV encoding round-trips: stripping the byte-order mark
from the encoder's output and splitting the text on CRLF line terminators and
rows on the separator yields back exactly the original grid. -/
theorem csv_roundtrip (g : List (List (List Char)))
    (hne : ∀ row ∈ g, row ≠ [])
    (hsafe : ∀ row ∈ g, ∀ cell ∈ row, ∀ ch ∈ cell,
      (32 ≤ ch.toNat ∧ ch.toNat ≤ 126) ∧ ch ≠ ',' ∧ ch ≠ '"') :
    decodeCsv (to_csv_utf8_bom (g.map (fun row => row.map some))) = g := by
  have hcellsafe : ∀ row ∈ g, ∀ cell ∈ row, ∀ ch ∈ cell, isCsvSpecial ch = false := by
    intro row hrow cell hc ch hch
    obtain ⟨⟨h1, _⟩, h2, h3⟩ := hsafe row hrow cell hc ch hch
    exact safe_not_special h1 h2 h3
  have hrow_eq : ∀ row ∈ g, encodeRow (row.map some) = List.intercalate [','] row := by
    intro row hrow
    unfold encodeRow
    rw [List.map_map]
    congr 1
    calc row.map ((fun v => encodeField (pyStrCell v)) ∘ some)
        = row.map (fun cell => cell) := List.map_congr_left (fun cell hc => by
            simp only [Function.comp_apply, pyStrCell, Option.getD_some]
            exact encodeField_of_safe (fun ch hch => hcellsafe row hrow cell hc ch hch))
      _ = row := by simp
  have hlines_safe : ∀ l ∈ g.map (fun row => encodeRow (row.map some)), '\r' ∉ l := by
    intro l hl
    rcases List.mem_map.mp hl with ⟨row, hrow, rfl⟩
    rw [hrow_eq row hrow]
    intro hmem
    rcases mem_of_mem_intercalate hmem with h | ⟨cell, hc, hch⟩
    · simp at h
    · have := hcellsafe row hrow cell hc '\r' hch
      simp [isCsvSpecial] at this
  unfold decodeCsv
  rw [to_csv_utf8_bom_eq]
  have hstrip : ∀ (x : List Char), stripBOM (bomChar :: x) = x := fun x => by
    simp [stripBOM]
  rw [hstrip]
  simp only [List.map_map, Function.comp_def]
  have key : List.map (fun row => encodeRow (List.map some row) ++ ['\r', '\n']) g =
      List.map (fun l => l ++ ['\r', '\n'])
        (List.map (fun row => encodeRow (List.map some row)) g) := by
    rw [List.map_map]
    rfl
  rw [key, splitCRLF_lines _ hlines_safe, List.dropLast_concat, List.map_map]
  calc g.map ((fun l => l.splitOn ',') ∘ (fun row => encodeRow (row.map some)))
      = g.map (fun row => row) := List.map_congr_left (fun row hrow => by
        simp only [Function.comp_apply]
        rw [hrow_eq row hrow]
        exact List.splitOn_intercalate row ',' (fun cell hc hmem => by
          have := hcellsafe row hrow cell hc ',' hmem
          simp [isCsvSpecial] at this) (hne row hrow))
    _ = g := by simp

/-- Witness for `csv_roundtrip` at a concrete grid. -/
theorem csv_roundtrip_witness :
    decodeCsv (to_csv_utf8_bom ([[['a'], ['b']], [['c']]].map
      (fun row => row.map some))) = [[['a'], ['b']], [['c']]] :=
  csv_roundtrip _ (by decide) (by decide)

/-- **C4 counterexample.** The comma is printable ASCII, yet a grid whose one
cell is `","` does not round-trip: the encoder quotes the field, and splitting
the decoded text on the separator does not give back the cell. -/
theorem csv_roundtrip_counterexample :
    (32 ≤ ','.toNat ∧ ','.toNat ≤ 126) ∧
    decodeCsv (to_csv_utf8_bom [[some [',']]]) ≠ [[[',']]] := by
  exact ⟨by decide, by decide⟩

lemma mem_escapeQuotes {c : Char} {s : List Char} (h : c ∈ escapeQuotes s) :
    c = '"' ∨ c ∈ s := by
  induction s with
  | nil => simp [escapeQuotes] at h
  | cons a t ih =>
    by_cases ha : a = '"'
    · subst ha
      simp only [escapeQuotes, if_pos rfl] at h
      rcases List.mem_cons.mp h with h1 | h1
      · exact Or.inl h1
      · rcases List.mem_cons.mp h1 with h2 | h2
        · exact Or.inl h2
        · rcases ih h2 with h3 | h3
          · exact Or.inl h3
          · exact Or.inr (List.mem_cons_of_mem _ h3)
    · simp only [escapeQuotes, if_neg ha] at h
      rcases List.mem_cons.mp h with h1 | h1
      · exact Or.inr (h1 ▸ List.mem_cons_self a t)
      · rcases ih h1 with h3 | h3
        · exact Or.inl h3
        · exact Or.inr (List.mem_cons_of_mem _ h3)

lemma mem_encodeField {c : Char} {s : List Char} (h : c ∈ encodeField s) :
    c = '"' ∨ c ∈ s := by
  unfold encodeField at h
  split at h
  · rcases List.mem_cons.mp h with h1 | h1
    · exact Or.inl h1
    · rcases List.mem_append.mp h1 with h2 | h2
      · exact mem_escapeQuotes h2
      · simp at h2
        exact Or.inl h2
  · exact Or.inr h

lemma mem_encodeRow {c : Char} {row : List (Option (List Char))}
    (h : c ∈ encodeRow row) :
    c = ',' ∨ c = '"' ∨ ∃ v ∈ row, c ∈ pyStrCell v := by
  rcases mem_of_mem_intercalate h with h1 | ⟨r, hr, hcr⟩
  · simp at h1
    exact Or.inl h1
  · rcases List.mem_map.mp hr with ⟨v, hv, rfl⟩
    rcases mem_encodeField hcr with h2 | h2
    · exact Or.inr (Or.inl h2)
    · exact Or.inr (Or.inr ⟨v, hv, h2⟩)

/-- **C5.** For every input grid, the CSV encoder emits the byte-order mark as
the first character, treats a `None` cell exactly like the empty string (so
replacing every cell by its stringification does not change the output), agrees
with the folder-listing entry point `rows_to_csv_utf8_bom`, and — whenever no
cell contains a carriage return or line feed — the text after the byte-order
mark splits on CRLF into exactly one encoded line per input row followed by the
empty piece left by the final terminator (every line is CRLF-terminated). -/
theorem csv_encoder_shape (g : List (List (Option (List Char)))) :
    (to_csv_utf8_bom g).head? = some bomChar ∧
    to_csv_utf8_bom g =
      to_csv_utf8_bom (g.map (fun row => row.map (fun v => some (pyStrCell v)))) ∧
    rows_to_csv_utf8_bom g = to_csv_utf8_bom g ∧
    ((∀ row ∈ g, ∀ v ∈ row, '\r' ∉ pyStrCell v ∧ '\n' ∉ pyStrCell v) →
      splitCRLF ((to_csv_utf8_bom g).tail) = g.map encodeRow ++ [[]]) := by
  refine ⟨rfl, ?_, rfl, ?_⟩
  · rw [to_csv_utf8_bom_eq, to_csv_utf8_bom_eq]
    congr 1
    rw [List.map_map]
    refine congrArg List.join (List.map_congr_left fun row _ => ?_)
    simp only [Function.comp_apply]
    congr 1
    unfold encodeRow
    rw [List.map_map]
    refine congrArg (List.intercalate [',']) (List.map_congr_left fun v _ => ?_)
    simp [pyStrCell]
  · intro hsafe
    rw [to_csv_utf8_bom_eq]
    simp only [List.tail_cons]
    have key : List.map (fun row => encodeRow row ++ ['\r', '\n']) g =
        List.map (fun l => l ++ ['\r', '\n']) (List.map encodeRow g) := by
      rw [List.map_map]
      rfl
    rw [key, splitCRLF_lines]
    intro l hl
    rcases List.mem_map.mp hl with ⟨row, hrow, rfl⟩
    intro hmem
    rcases mem_encodeRow hmem with h1 | h1 | ⟨v, hv, hcv⟩
    · exact absurd h1 (by decide)
    · exact absurd h1 (by decide)
    · exact (hsafe row hrow v hv).1 hcv

/-- Witness for `csv_encoder_shape`: a grid with a `None` cell splits into one
line per row. -/
theorem csv_encoder_shape_witness :
    splitCRLF ((to_csv_utf8_bom [[some ['x']], [none]]).tail)
      = [[some ['x']], [none]].map encodeRow ++ [[]] :=
  (csv_encoder_shape [[some ['x']], [none]]).2.2.2 (by decide)

/-! ## Attachment upsert (src/sheet_to_confluence.py lines 214-239 and 342-348)

The wiki attachment store is modelled as explicit state: a list of attachments
(in creation order, which is the order the backend reports them) and a counter
for the next attachment id.  `GET /child/attachment?filename=f` is the
server-side filter by page and exact filename; the client takes the first
result. -/

/-- One stored attachment. -/
structure Attachment where
  pageId : String
  filename : String
  attId : Nat
  content : List Nat
  deriving DecidableEq

/-- The wiki attachment store. -/
structure ConfState where
  atts : List Attachment
  nextId : Nat
  deriving DecidableEq

/-- The results the backend returns for the lookup
`GET /content/{pageId}/child/attachment?filename={f}`: the attachments of the
page with that exact filename. -/
def slotAtts (s : ConfState) (p f : String) : List Attachment :=
  s.atts.filter (fun a => a.pageId = p ∧ a.filename = f)

/-- `find_attachment` from `src/sheet_to_confluence.py`: id of the first
result, if any. -/
def find_attachment (s : ConfState) (p f : String) : Option Nat :=
  (slotAtts s p f).head?.map (fun a => a.attId)

/-- `create_attachment`: `POST /child/attachment` stores a new attachment with
a fresh id. -/
def create_attachment (s : ConfState) (p f : String) (payload : List Nat) :
    ConfState :=
  { atts := s.atts ++ [⟨p, f, s.nextId, payload⟩], nextId := s.nextId + 1 }

/-- `update_attachment`: `POST /child/attachment/{attId}/data` replaces the
content of the attachment with that id. -/
def update_attachment (s : ConfState) (attId : Nat) (payload : List Nat) :
    ConfState :=
  { s with
    atts := s.atts.map (fun a =>
      if a.attId = attId then { a with content := payload } else a) }

/-- The upsert step of `main` (lines 342-348): look up by filename; update if
found, else create. -/
def upsertAttachment (s : ConfState) (p f : String) (payload : List Nat) :
    ConfState :=
  match find_attachment s p f with
  | some attId => update_attachment s attId payload
  | none => create_attachment s p f payload

/-- **C1.** Starting from any store with no attachment in the
`(pageId, filename)` slot, running the sync twice with payloads `b1` then `b2`
leaves exactly one attachment in that slot, holding `b2`; the first run finds
nothing and creates, the second finds exactly the created id and updates. -/
theorem upsert_attachment_idempotent (s : ConfState) (p f : String)
    (b1 b2 : List Nat) (hempty : slotAtts s p f = []) :
    find_attachment s p f = none ∧
    upsertAttachment s p f b1 = create_attachment s p f b1 ∧
    find_attachment (upsertAttachment s p f b1) p f = some s.nextId ∧
    upsertAttachment (upsertAttachment s p f b1) p f b2 =
      update_attachment (upsertAttachment s p f b1) s.nextId b2 ∧
    slotAtts (upsertAttachment (upsertAttachment s p f b1) p f b2) p f =
      [⟨p, f, s.nextId, b2⟩] := by
  have hfind1 : find_attachment s p f = none := by
    rw [find_attachment, hempty]
    rfl
  have hup1 : upsertAttachment s p f b1 = create_attachment s p f b1 := by
    rw [upsertAttachment, hfind1]
  have hslot1 : slotAtts (create_attachment s p f b1) p f =
      [⟨p, f, s.nextId, b1⟩] := by
    rw [slotAtts, create_attachment]
    simp only [List.filter_append]
    rw [show s.atts.filter (fun a => decide (a.pageId = p ∧ a.filename = f)) =
        slotAtts s p f from rfl, hempty]
    simp
  have hfind2 : find_attachment (create_attachment s p f b1) p f =
      some s.nextId := by
    rw [find_attachment, hslot1]
    rfl
  have hup2 : upsertAttachment (create_attachment s p f b1) p f b2 =
      update_attachment (create_attachment s p f b1) s.nextId b2 := by
    rw [upsertAttachment, hfind2]
  have hslot2 : slotAtts (update_attachment (create_attachment s p f b1)
      s.nextId b2) p f = [⟨p, f, s.nextId, b2⟩] := by
    rw [slotAtts, update_attachment, create_attachment]
    simp only [List.map_append, List.filter_append]
    have hleft : (s.atts.map (fun a =>
        if a.attId = s.nextId then { a with content := b2 } else a)).filter
        (fun a => a.pageId = p ∧ a.filename = f) = [] := by
      rw [List.filter_map]
      have : s.atts.filter ((fun a => decide (a.pageId = p ∧ a.filename = f)) ∘
          (fun a => if a.attId = s.nextId then { a with content := b2 } else a)) =
          s.atts.filter (fun a => decide (a.pageId = p ∧ a.filename = f)) := by
        refine List.filter_congr fun a _ => ?_
        by_cases h : a.attId = s.nextId <;> simp [h]
      rw [this, show s.atts.filter
          (fun a => decide (a.pageId = p ∧ a.filename = f)) = slotAtts s p f from rfl,
        hempty]
      rfl
    rw [hleft]
    simp
  rw [hup1]
  exact ⟨hfind1, rfl, hfind2, hup2, by rw [hup2]; exact hslot2⟩

/-- Witness for `upsert_attachment_idempotent` from the empty store. -/
theorem upsert_attachment_idempotent_witness :
    slotAtts (upsertAttachment (upsertAttachment ⟨[], 0⟩ "p1" "data.csv" [1])
      "p1" "data.csv" [2]) "p1" "data.csv" = [⟨"p1", "data.csv", 0, [2]⟩] :=
  (upsert_attachment_idempotent ⟨[], 0⟩ "p1" "data.csv" [1] [2] (by decide)).2.2.2.2

/-! ## Page lookup by title and ancestor chain
(src/generate_lessons_from_sheet.py lines 103-175)

The title search `GET /rest/api/content?title=...&expand=ancestors` returns a
list of candidate pages, each with its id and ancestor-id chain (ids already
stringified, as the Python code compares `str(a["id"]) == str(parent_id)`). -/

/-- A candidate page returned by the title search. -/
structure WikiPage where
  id : String
  ancestors : List String
  deriving DecidableEq

/-- `get_page_by_title`: return the id of the first candidate whose ancestor
chain contains the parent id, or `None`. -/
def get_page_by_title (results : List WikiPage) (parent_id : String) :
    Option String :=
  (results.find? (fun page => page.ancestors.any (fun a => a = parent_id))).map
    (fun page => page.id)

/-- The two branches of `create_or_update_page`. -/
inductive PageUpsert where
  | created
  | updated (id : String)
  deriving DecidableEq

/-- `create_or_update_page`: update the found page, else create a new one. -/
def create_or_update_page (results : List WikiPage) (parent_id : String) :
    PageUpsert :=
  match get_page_by_title results parent_id with
  | some existing_id => PageUpsert.updated existing_id
  | none => PageUpsert.created

/-- **C6.** The lookup accepts a candidate only if the parent id appears in
its ancestor chain: any id it returns belongs to a candidate whose ancestors
contain the parent; and when no candidate's ancestor chain contains the
parent — in particular when same-titled pages exist only under other
parents — the lookup returns `None` and the upsert takes the creation path. -/
theorem page_lookup_ancestor_guard (results : List WikiPage) (parent_id : String) :
    (∀ pid, get_page_by_title results parent_id = some pid →
      ∃ page ∈ results, page.id = pid ∧ parent_id ∈ page.ancestors) ∧
    ((∀ page ∈ results, parent_id ∉ page.ancestors) →
      get_page_by_title results parent_id = none ∧
      create_or_update_page results parent_id = PageUpsert.created) := by
  constructor
  · intro pid hpid
    rw [get_page_by_title] at hpid
    rcases Option.map_eq_some'.mp hpid with ⟨page, hfind, hid⟩
    refine ⟨page, List.mem_of_find?_eq_some hfind, hid, ?_⟩
    have hpred := List.find?_some hfind
    rcases List.any_eq_true.mp hpred with ⟨a, ha, haeq⟩
    rwa [show a = parent_id from by simpa using haeq] at ha
  · intro hnone
    have hfind : results.find?
        (fun page => page.ancestors.any (fun a => a = parent_id)) = none := by
      rw [List.find?_eq_none]
      intro page hpage
      intro ha
      rcases List.any_eq_true.mp ha with ⟨a, hmem, haeq⟩
      have haParent : a = parent_id := by simpa using haeq
      exact hnone page hpage (haParent ▸ hmem)
    constructor
    · rw [get_page_by_title, hfind]
      rfl
    · rw [create_or_update_page, get_page_by_title, hfind]
      rfl

/-- Witness for `page_lookup_ancestor_guard`: a same-titled page under a
different parent is not matched and the creation path is taken. -/
theorem page_lookup_ancestor_guard_witness :
    get_page_by_title [⟨"99", ["7", "8"]⟩] "42" = none ∧
    create_or_update_page [⟨"99", ["7", "8"]⟩] "42" = PageUpsert.created :=
  (page_lookup_ancestor_guard [⟨"99", ["7", "8"]⟩] "42").2 (by decide)

/-! ## Best-effort write-back (src/sheet_to_confluence.py lines 351-369)

After a successful upsert, `main` optionally writes a status cell and appends
a log row inside one `try`/`except` block; the two spreadsheet calls are
modelled as oracle results of type `Except String Unit`. -/

/-- A Python truthiness test for an optional string (`None` and `""` are
falsy). -/
def truthy (o : Option String) : Bool := !(o.getD "" = "")

/-- The write-back flags of `main` plus the `--spreadsheet` argument. -/
structure WriteBackArgs where
  write_back_range : Option String
  append_log : Option String
  spreadsheet : Option String

/-- The body of the `try` block (lines 352-367): the status-cell write runs
first and a failure in it skips the log append; a missing `--spreadsheet`
raises inside the block. -/
def write_back_try (a : WriteBackArgs) (setResult appendResult : Except String Unit) :
    Except String Unit :=
  let step1 : Except String Unit :=
    if truthy a.write_back_range then
      if truthy a.spreadsheet then setResult
      else Except.error "--spreadsheet is required when using --write-back-range"
    else Except.ok ()
  match step1 with
  | Except.error e => Except.error e
  | Except.ok _ =>
    if truthy a.append_log then
      if truthy a.spreadsheet then appendResult
      else Except.error "--spreadsheet is required when using --append-log"
    else Except.ok ()

/-- Steps 2-3 of `main` after the payload is acquired: perform the upsert,
then run the guarded write-back; returns the final store, the process exit
code, and the warnings printed to stderr.  The surrounding
`except Exception … sys.exit(1)` wrapper never fires here because the
write-back `try` swallows every error. -/
def main_sync (s : ConfState) (p f : String) (payload : List Nat)
    (a : WriteBackArgs) (setResult appendResult : Except String Unit) :
    ConfState × Nat × List String :=
  let s' := upsertAttachment s p f payload
  if truthy a.write_back_range || truthy a.append_log then
    match write_back_try a setResult appendResult with
    | Except.ok _ => (s', 0, [])
    | Except.error e => (s', 0, ["Write-back warning: " ++ e])
  else (s', 0, [])

/-- **C7.** Whenever the upsert has succeeded, the sync exits with code 0 and
the stored attachment state is exactly the upsert result, regardless of any
write-back failure; a write-back failure only adds a warning line. -/
theorem write_back_best_effort (s : ConfState) (p f : String) (payload : List Nat)
    (a : WriteBackArgs) (setResult appendResult : Except String Unit) :
    (main_sync s p f payload a setResult appendResult).2.1 = 0 ∧
    (main_sync s p f payload a setResult appendResult).1 =
      upsertAttachment s p f payload ∧
    (∀ e, write_back_try a setResult appendResult = Except.error e →
      (truthy a.write_back_range || truthy a.append_log) = true →
      (main_sync s p f payload a setResult appendResult).2.2 =
        ["Write-back warning: " ++ e]) := by
  unfold main_sync
  refine ⟨?_, ?_, ?_⟩
  · split
    · split <;> rfl
    · rfl
  · split
    · split <;> rfl
    · rfl
  · intro e he hflags
    rw [if_pos hflags, he]

/-- Witness for `write_back_best_effort`: a failing log append still exits 0
with a warning. -/
theorem write_back_best_effort_witness :
    (main_sync ⟨[], 0⟩ "p1" "data.csv" [1]
      ⟨none, some "SyncLog!A:C", some "S"⟩ (Except.ok ())
      (Except.error "quota")).2.1 = 0 ∧
    (main_sync ⟨[], 0⟩ "p1" "data.csv" [1]
      ⟨none, some "SyncLog!A:C", some "S"⟩ (Except.ok ())
      (Except.error "quota")).2.2 = ["Write-back warning: " ++ "quota"] := by
  have h := write_back_best_effort ⟨[], 0⟩ "p1" "data.csv" [1]
    ⟨none, some "SyncLog!A:C", some "S"⟩ (Except.ok ()) (Except.error "quota")
  exact ⟨h.1, h.2.2 "quota" (by rfl) (by decide)⟩

/-! ## Retry policy (src/sheet_to_confluence.py lines 192-204,
src/llm_client.py lines 26-44)

`build_session` mounts a `Retry(total=5, backoff_factor=0.6,
status_forcelist=(429, 500, 502, 503, 504), allowed_methods={"GET", "POST"})`
adapter on the wiki session only.  A request execution is modelled against a
status oracle (attempt index to HTTP status): a status in scope for retry is
retried while retries remain, and when they are exhausted the last status is
surfaced as an error (urllib3 `MaxRetryError` wrapping the status, not a
timeout).  The generation-backend call performs a single request with no
retry construct at all. -/

/-- The retry configuration mounted by `build_session`. -/
structure RetryPolicy where
  total : Nat
  backoff_factor : ℚ
  status_forcelist : List Nat
  allowed_methods : List String

/-- The exact policy constructed in `build_session`. -/
def wikiRetryPolicy : RetryPolicy :=
  { total := 5
    backoff_factor := 3 / 5
    status_forcelist := [429, 500, 502, 503, 504]
    allowed_methods := ["GET", "POST"] }

/-- Whether a failing response is in scope for a retry. -/
def is_retried (p : RetryPolicy) (method : String) (status : Nat) : Bool :=
  p.allowed_methods.contains method && p.status_forcelist.contains status

/-- Execute one request with up to `fuel` remaining retries against the status
oracle; returns the number of attempts made and the final outcome (`ok` for a
status outside the retry scope, `error` for the status that exhausted the
retries). -/
def sessionGo (p : RetryPolicy) (method : String) (statuses : Nat → Nat) :
    Nat → Nat → Nat × Except Nat Nat
  | fuel, i =>
    if is_retried p method (statuses i) then
      match fuel with
      | 0 => (i + 1, Except.error (statuses i))
      | f + 1 => sessionGo p method statuses f (i + 1)
    else (i + 1, Except.ok (statuses i))

/-- A request on the wiki session: initial attempt plus at most
`p.total` retries. -/
def session_request (p : RetryPolicy) (method : String) (statuses : Nat → Nat) :
    Nat × Except Nat Nat :=
  sessionGo p method statuses p.total 0

/-- `_call_ollama_native` from `src/llm_client.py`: a single `requests.post`
with no retry adapter; any status other than 200 raises at once. -/
def _call_ollama_native (statuses : Nat → Nat) : Except String Nat :=
  if statuses 0 ≠ 200 then
    Except.error ("Ollama error " ++ toString (statuses 0))
  else Except.ok (statuses 0)

/-- **C8.** Retries exist only on the wiki session, whose policy performs up
to 5 retries with backoff factor 0.6 and retries a request only when the
method is GET or POST and the status is 429 or 5xx; six 503 responses in a
row exhaust the policy and surface the wrapped 503; the generation-backend
call consults only its first response and a single non-200 status is
immediately fatal. -/
theorem retry_policy_scope :
    (∀ (m : String) (st : Nat), is_retried wikiRetryPolicy m st = true →
      (m = "GET" ∨ m = "POST") ∧ (st = 429 ∨ (500 ≤ st ∧ st ≤ 599))) ∧
    wikiRetryPolicy.total = 5 ∧
    wikiRetryPolicy.backoff_factor = 3 / 5 ∧
    session_request wikiRetryPolicy "POST" (fun _ => 503) =
      (6, Except.error 503) ∧
    (∀ f g : Nat → Nat, f 0 = g 0 →
      _call_ollama_native f = _call_ollama_native g) ∧
    (∀ f : Nat → Nat, f 0 ≠ 200 →
      _call_ollama_native f = Except.error ("Ollama error " ++ toString (f 0))) := by
  refine ⟨?_, rfl, rfl, rfl, ?_, ?_⟩
  · intro m st h
    rw [is_retried, Bool.and_eq_true] at h
    obtain ⟨hm, hs⟩ := h
    rw [show wikiRetryPolicy.allowed_methods = ["GET", "POST"] from rfl] at hm
    rw [show wikiRetryPolicy.status_forcelist =
      [429, 500, 502, 503, 504] from rfl] at hs
    simp at hm hs
    refine ⟨hm, ?_⟩
    rcases hs with h | h | h | h | h <;> omega
  · intro f g hfg
    unfold _call_ollama_native
    rw [hfg]
  · intro f hf
    unfold _call_ollama_native
    rw [if_pos hf]

/-- Witness for `retry_policy_scope` at method GET, status 429, and a failing
generation call. -/
theorem retry_policy_scope_witness :
    ((("GET" : String) = "GET" ∨ ("GET" : String) = "POST") ∧
      ((429 : Nat) = 429 ∨ (500 ≤ 429 ∧ (429 : Nat) ≤ 599))) ∧
    _call_ollama_native (fun _ => 503) =
      Except.error ("Ollama error " ++ toString (503 : Nat)) :=
  ⟨retry_policy_scope.1 "GET" 429 (by decide),
   retry_policy_scope.2.2.2.2.2 (fun _ => 503) (by decide)⟩

/-! ## Configuration validation order (src/sheet_to_confluence.py lines
60-86 and 280-336)

`main` is modelled up to payload acquisition as a function from the parsed
arguments, the environment, and a metadata oracle (the spreadsheet's tabs as
stringified `sheetId`/title pairs) to the list of network calls issued and the
final outcome.  `str(gid)` on a missing gid is Python's `"None"`. -/

/-- The command-line arguments relevant to payload acquisition. -/
structure CliArgs where
  source_kind : String
  spreadsheet : Option String
  gid : Option String
  tab_name : Option String
  drive_file_id : Option String
  drive_folder_id : Option String

/-- The environment variables checked before any work. -/
structure EnvConfig where
  conf_user : Option String
  conf_pass : Option String
  sa_exists : Bool

/-- The network calls the acquisition phase can issue. -/
inductive NetCall where
  | sheetMeta
  | sheetValues
  | driveExport
  | driveDownload
  | driveList
  deriving DecidableEq

/-- Python `str(x)` for an optional string: `None` prints as `"None"`. -/
def pyStr (o : Option String) : String :=
  match o with
  | none => "None"
  | some s => s

/-- `main` from environment checks through payload acquisition (lines
280-336), with `get_sheet_values` (lines 60-86) inlined: returns the network
calls issued, in order, and `ok` or the error message raised.  The fetches
themselves are assumed to succeed; `tabs` is the metadata the spreadsheet
backend would report. -/
def mainAcquire (args : CliArgs) (env : EnvConfig)
    (tabs : List (String × String)) : List NetCall × Except String Unit :=
  if !truthy env.conf_user || !truthy env.conf_pass then
    ([], Except.error "ERROR: Set CONF_USER and CONF_PASS environment variables.")
  else if !env.sa_exists then
    ([], Except.error "ERROR: Google Service Account json not found")
  else if args.source_kind = "sheet_values" then
    if !truthy args.spreadsheet then
      ([], Except.error "ERROR: --spreadsheet is required for source-kind=sheet_values")
    else if truthy args.tab_name then
      ([NetCall.sheetValues], Except.ok ())
    else
      match tabs.find? (fun t => t.1 = pyStr args.gid) with
      | some _ => ([NetCall.sheetMeta, NetCall.sheetValues], Except.ok ())
      | none => ([NetCall.sheetMeta],
          Except.error ("Tab with gid=" ++ pyStr args.gid ++
            " not found in spreadsheet " ++ pyStr args.spreadsheet))
  else if args.source_kind = "drive_export" then
    if !truthy args.drive_file_id then
      ([], Except.error "ERROR: --drive-file-id is required for source-kind=drive_export")
    else ([NetCall.driveExport], Except.ok ())
  else if args.source_kind = "drive_download" then
    if !truthy args.drive_file_id then
      ([], Except.error "ERROR: --drive-file-id is required for source-kind=drive_download")
    else ([NetCall.driveDownload], Except.ok ())
  else if args.source_kind = "drive_list" then
    if !truthy args.drive_folder_id then
      ([], Except.error "ERROR: --drive-folder-id is required for source-kind=drive_list")
    else ([NetCall.driveList], Except.ok ())
  else ([], Except.error "Unsupported source-kind")

/-- `Except.isOk`-style helper: the acquisition failed. -/
def acquireFailed (r : List NetCall × Except String Unit) : Prop :=
  ∃ e, r.2 = Except.error e

/-- **C9 (amended).** A missing credential, a missing service-account file, a
missing spreadsheet id for table-values, a missing file id for
file-export/file-download, and a missing folder id for folder-listing each
fail with a descriptive error before any network call; but table-values with
*neither* a tab gid nor a tab name is only detected after the spreadsheet
metadata has been fetched over the network (see the counterexample). -/
theorem config_validation_before_network (args : CliArgs) (env : EnvConfig)
    (tabs : List (String × String)) :
    ((!truthy env.conf_user || !truthy env.conf_pass) = true →
      mainAcquire args env tabs =
        ([], Except.error "ERROR: Set CONF_USER and CONF_PASS environment variables.")) ∧
    (truthy env.conf_user = true → truthy env.conf_pass = true →
      env.sa_exists = false →
      mainAcquire args env tabs =
        ([], Except.error "ERROR: Google Service Account json not found")) ∧
    (truthy env.conf_user = true → truthy env.conf_pass = true →
      env.sa_exists = true →
      args.source_kind = "sheet_values" → truthy args.spreadsheet = false →
      mainAcquire args env tabs =
        ([], Except.error "ERROR: --spreadsheet is required for source-kind=sheet_values")) ∧
    (truthy env.conf_user = true → truthy env.conf_pass = true →
      env.sa_exists = true →
      (args.source_kind = "drive_export" ∨ args.source_kind = "drive_download") →
      truthy args.drive_file_id = false →
      (mainAcquire args env tabs).1 = [] ∧ acquireFailed (mainAcquire args env tabs)) ∧
    (truthy env.conf_user = true → truthy env.conf_pass = true →
      env.sa_exists = true →
      args.source_kind = "drive_list" → truthy args.drive_folder_id = false →
      mainAcquire args env tabs =
        ([], Except.error "ERROR: --drive-folder-id is required for source-kind=drive_list")) := by
  refine ⟨?_, ?_, ?_, ?_, ?_⟩
  · intro h
    rw [mainAcquire, if_pos h]
  · intro hu hp hsa
    rw [mainAcquire, if_neg (by simp [hu, hp]), if_pos (by simp [hsa])]
  · intro hu hp hsa hsk hsp
    rw [mainAcquire, if_neg (by simp [hu, hp]), if_neg (by simp [hsa]),
      if_pos hsk, if_pos (by simp [hsp])]
  · intro hu hp hsa hsk hfile
    rcases hsk with hsk | hsk
    · rw [mainAcquire, if_neg (by simp [hu, hp]), if_neg (by simp [hsa]), hsk,
        if_neg (by decide), if_pos rfl, if_pos (by simp [hfile])]
      exact ⟨rfl, _, rfl⟩
    · rw [mainAcquire, if_neg (by simp [hu, hp]), if_neg (by simp [hsa]), hsk,
        if_neg (by decide), if_neg (by decide), if_pos rfl,
        if_pos (by simp [hfile])]
      exact ⟨rfl, _, rfl⟩
  · intro hu hp hsa hsk hfolder
    rw [mainAcquire, if_neg (by simp [hu, hp]), if_neg (by simp [hsa]), hsk]
    rw [if_neg (by decide), if_neg (by decide), if_neg (by decide), if_pos rfl,
      if_pos (by simp [hfolder])]

/-- Witness for `config_validation_before_network`: a missing credential fails
with no network call. -/
theorem config_validation_before_network_witness :
    mainAcquire ⟨"sheet_values", some "S", none, none, none, none⟩
      ⟨none, some "p", true⟩ [("0", "Sheet1")] =
      ([], Except.error "ERROR: Set CONF_USER and CONF_PASS environment variables.") :=
  (config_validation_before_network
    ⟨"sheet_values", some "S", none, none, none, none⟩
    ⟨none, some "p", true⟩ [("0", "Sheet1")]).1 (by decide)

/-- **C9 counterexample.** A table-values invocation with a spreadsheet id but
neither a tab gid nor a tab name is not rejected up front: the code fetches
the spreadsheet metadata (a network call) and only then fails with
`Tab with gid=None not found`, so the claim that every missing required
selector parameter fails before any network call is false. -/
theorem config_validation_counterexample :
    mainAcquire ⟨"sheet_values", some "S", none, none, none, none⟩
      ⟨some "u", some "p", true⟩ [("0", "Sheet1")] =
      ([NetCall.sheetMeta],
        Except.error "Tab with gid=None not found in spreadsheet S") ∧
    (mainAcquire ⟨"sheet_values", some "S", none, none, none, none⟩
      ⟨some "u", some "p", true⟩ [("0", "Sheet1")]).1 ≠ [] := by
  refine ⟨by rfl, ?_⟩
  intro h
  simp [mainAcquire, truthy, pyStr] at h

/-! ## `/lessons` query endpoint (src/api_server.py lines 149-183)

The records come from `_rows_to_dicts`; the endpoint filters them and returns
`count` (the full number of matches) plus `data` (the matches truncated to
`max(1, limit)`). -/

/-- Python `str.lower()` over the character list. -/
def pyLower (s : String) : String := String.mk (s.data.map Char.toLower)

/-- `_norm` from `src/api_server.py`: `(s or "").strip().lower()`. -/
def _norm (s : String) : String := pyLower (pyStrip s)

/-- Python `dict.get(k, default)` on the dict model. -/
def dictGet (d : List (String × String)) (k dflt : String) : String :=
  match d.find? (fun kv => kv.1 = k) with
  | some kv => kv.2
  | none => dflt

/-- Python `str.startswith` over the character lists. -/
def pyStartsWith (s pre : String) : Bool := pre.data.isPrefixOf s.data

/-- The `keep` predicate of `list_lessons` (the query values `mn`, `sp`, `au`
are already normalized by the caller). -/
def lessons_keep (mn sp au : String) (it : List (String × String)) : Bool :=
  if mn ≠ "" ∧ _norm (dictGet it "Module Name" "") ≠ mn then false
  else if sp ≠ "" ∧ ¬ pyStartsWith (_norm (dictGet it "Section" "")) sp then false
  else if au ≠ "" ∧ _norm (dictGet it "author" "") ≠ au then false
  else true

/-- `list_lessons` from `src/api_server.py` after the rows have been read and
converted: returns the `count` field and the `data` list of the JSON body.
The slice `filtered[: max(1, limit)]` keeps the first `max 1 limit` records
(`limit` is a Python `int`, possibly negative). -/
def list_lessons (items : List (List (String × String)))
    (module_name sectionPref author : String) (limit : Int) :
    Nat × List (List (String × String)) :=
  let mn := _norm module_name
  let sp := _norm sectionPref
  let au := _norm author
  let filtered := items.filter (lessons_keep mn sp au)
  (filtered.length, filtered.take (max 1 limit).toNat)

/-- **C10.** For every record list, every filter triple, and every integer
limit: `data` holds at most `max 1 limit` records, `count` is the full number
of matches before truncation, and a zero or negative limit still returns the
first match (`data = matches.take 1`), neither zero records when matches exist
nor all of them. -/
theorem list_lessons_limit (items : List (List (String × String)))
    (module_name sectionPref author : String) (limit : Int) :
    ((list_lessons items module_name sectionPref author limit).2.length : Int) ≤
      max 1 limit ∧
    (list_lessons items module_name sectionPref author limit).1 =
      (items.filter (lessons_keep (_norm module_name) (_norm sectionPref)
        (_norm author))).length ∧
    (limit ≤ 0 →
      (list_lessons items module_name sectionPref author limit).2 =
        (items.filter (lessons_keep (_norm module_name) (_norm sectionPref)
          (_norm author))).take 1 ∧
      ((items.filter (lessons_keep (_norm module_name) (_norm sectionPref)
          (_norm author))) ≠ [] →
        (list_lessons items module_name sectionPref author limit).2.length = 1)) := by
  refine ⟨?_, rfl, ?_⟩
  · have hlen : (list_lessons items module_name sectionPref author limit).2.length ≤
        (max 1 limit).toNat := by
      simp [list_lessons]

    have hnonneg : (0 : Int) ≤ max 1 limit := le_trans (by norm_num) (le_max_left 1 limit)
    calc ((list_lessons items module_name sectionPref author limit).2.length : Int)
        ≤ ((max 1 limit).toNat : Int) := by exact_mod_cast hlen
      _ = max 1 limit := Int.toNat_of_nonneg hnonneg
  · intro hlim
    have hmax : (max 1 limit).toNat = 1 := by
      have h1 : max 1 limit = 1 := max_eq_left (le_trans hlim (by norm_num))
      rw [h1]
      rfl
    constructor
    · simp [list_lessons, hmax]
    · intro hne
      simp only [list_lessons, hmax]
      rcases List.exists_cons_of_ne_nil hne with ⟨a, t, heq⟩
      rw [heq]
      rfl

/-- Witness for `list_lessons_limit`: limit 0 on one matching record returns
exactly that record. -/
theorem list_lessons_limit_witness :
    ((list_lessons [[("Module Name", "m")]] "" "" "" 0).2.length : Int) ≤
      max 1 (0 : Int) ∧
    (list_lessons [[("Module Name", "m")]] "" "" "" 0).2.length = 1 := by
  have h := list_lessons_limit [[("Module Name", "m")]] "" "" "" 0
  exact ⟨h.1, (h.2.2 (by decide)).2 (by decide)⟩
